import Mathlib

unseal Rat.mul Rat.inv Rat.add Rat.sub

/-!
Verification of the tree-rendering core of spark_tree_plotting.py.

The Python module renders a fitted decision tree as DOT text.  The
functions modelled here are, in source order: generate_color_brew,
node_to_str, get_num_classes, add_node_ids and relations_to_str.

Modelling conventions:
* Python floats are modelled as rationals; the "%.4f" format is modelled
  by round-half-to-even at four decimal places, which agrees with CPython
  on every value appearing in the claims.
* A tree node is a Python dict with a nodeType discriminator; it is
  modelled as a tagged union.  The optional "id" key (absent until
  add_node_ids runs) is an Option.
* Python exceptions (KeyError from dict lookups, IndexError from list
  indexing) are modelled with Except String; a lookup that CPython would
  raise on returns Except.error.
* The while-loops over an explicit worklist are modelled as fuel-indexed
  structural recursions; one unit of fuel is one loop iteration, and the
  wrappers supply (number of nodes + 1) fuel, which lemmas below show is
  exactly enough.
-/

/-- The split stored in an internal node: "splitType" is "continuous"
(with a "threshold") or "categorical" (with "leftCategories"). -/
inductive SplitType : Type where
  | continuous (threshold : ℚ)
  | categorical (leftCategories : List ℕ)
deriving DecidableEq, Repr

/-- One node of the parsed JSON tree.  "id" is the key added by
add_node_ids (none while the key is absent); leaves carry "prediction"
and "impurity", internal nodes additionally "featureIndex", the split,
"gain" and the two children. -/
inductive TreeNode : Type where
  | leaf (id : Option ℕ) (prediction : ℕ) (impurity : ℚ)
  | internal (id : Option ℕ) (prediction : ℕ) (impurity : ℚ)
      (featureIndex : ℕ) (split : SplitType) (gain : ℚ)
      (leftChild rightChild : TreeNode)
deriving DecidableEq, Repr

/-- The "id" entry of the node dict, if present. -/
def TreeNode.idOf : TreeNode → Option ℕ
  | .leaf i _ _ => i
  | .internal i _ _ _ _ _ _ _ => i

/-- The "prediction" entry of the node dict. -/
def TreeNode.prediction : TreeNode → ℕ
  | .leaf _ p _ => p
  | .internal _ p _ _ _ _ _ _ => p

/-- The "impurity" entry of the node dict. -/
def TreeNode.impurity : TreeNode → ℚ
  | .leaf _ _ m => m
  | .internal _ _ m _ _ _ _ _ => m

/-- Number of nodes in a tree. -/
def TreeNode.size : TreeNode → ℕ
  | .leaf _ _ _ => 1
  | .internal _ _ _ _ _ _ l r => 1 + l.size + r.size

/-- Total number of nodes in a worklist of trees; the loop measures
below are phrased with it. -/
def totalSize (ts : List TreeNode) : ℕ := (ts.map TreeNode.size).sum

/-- generate_color_brew from the source: hue_step = 360/n and the list
[color * hue_step / 360 for color in range(n)]. -/
def generate_color_brew (n : ℕ) : List ℚ :=
  let hue_step : ℚ := 360 / (n : ℚ)
  (List.range n).map (fun color : ℕ => (color : ℚ) * hue_step / 360)

/-- Round-half-to-even of a rational to an integer; the rounding CPython
uses when formatting with "%.4f" (on the values of this development the
binary-float rounding agrees with the exact rational rounding). -/
def roundHalfEven (q : ℚ) : ℤ :=
  let f := ⌊q⌋
  let r := q - f
  if r < 1 / 2 then f
  else if 1 / 2 < r then f + 1
  else if f % 2 = 0 then f else f + 1

/-- Left-pad the decimal digits of a natural number to four digits. -/
def natPad4 (m : ℕ) : String :=
  let s := toString m
  String.mk (List.replicate (4 - s.length) '0') ++ s

/-- Python's "%.4f" on a rational: fixed-point with four digits after
the decimal point. -/
def fmt4 (q : ℚ) : String :=
  let n := roundHalfEven (q * 10000)
  (if n < 0 then "-" else "")
    ++ toString (n.natAbs / 10000) ++ "." ++ natPad4 (n.natAbs % 10000)

instance {ε α : Type} [DecidableEq ε] [DecidableEq α] : DecidableEq (Except ε α) :=
  fun x y =>
    match x, y with
    | .error e, .error f => decidable_of_iff (e = f) (by simp)
    | .ok a, .ok b => decidable_of_iff (a = b) (by simp)
    | .error _, .ok _ => isFalse (fun hh => Except.noConfusion hh)
    | .ok _, .error _ => isFalse (fun hh => Except.noConfusion hh)

/-- The class display name, lines 70-76 of the source: with classNames
absent it is "Class #" followed by the prediction; with classNames
present it is dict(enumerate(classNames))[prediction], and a prediction
beyond the end of the list raises KeyError. -/
def classNameStrE (classNames : Option (List String)) (prediction : ℕ) :
    Except String String :=
  match classNames with
  | none => Except.ok ("Class #" ++ toString prediction)
  | some cns =>
    match cns.get? prediction with
    | some cn => Except.ok cn
    | none => Except.error ("KeyError: prediction " ++ toString prediction)

/-- The feature display name and the dict key used for the categoryNames
lookup, lines 83-89 of the source: with featureNames absent the key is
the integer featureIndex and the display is "Feature #" followed by it;
with featureNames present the key is the looked-up name (KeyError when
featureIndex is beyond the end of the list). -/
def featureNameE (featureNames : Option (List String)) (featureIndex : ℕ) :
    Except String ((ℕ ⊕ String) × String) :=
  match featureNames with
  | none => Except.ok (Sum.inl featureIndex, "Feature #" ++ toString featureIndex)
  | some fns =>
    match fns.get? featureIndex with
    | some fn => Except.ok (Sum.inr fn, fn)
    | none => Except.error ("KeyError: featureIndex " ++ toString featureIndex)

/-- Slices of five successive elements, the range(0, len, 5) chunking of
lines 94 and 102 of the source. -/
def chunksOf5Aux {α : Type} : List α → List α → List (List α)
  | [], acc => if acc.isEmpty then [] else [acc]
  | x :: xs, acc =>
    let acc2 := acc ++ [x]
    if acc2.length = 5 then acc2 :: chunksOf5Aux xs [] else chunksOf5Aux xs acc2

/-- Slices of five successive elements of a list. -/
def chunksOf5 {α : Type} (l : List α) : List (List α) := chunksOf5Aux l []

/-- The categories string built when no category labels apply, lines
93-96 and 106-109 of the source: the raw integer indices, five per line,
the lines joined with a literal backslash-n, wrapped in braces and
prefixed with "categories# ". -/
def rawCategories (leftCategories : List ℕ) : String :=
  "categories# " ++ "\x7b"
    ++ String.intercalate "\\n"
        ((chunksOf5 leftCategories).map
          (fun chunk => String.intercalate "," (chunk.map toString)))
    ++ "\x7d"

/-- The dict lookup categoryNames[feature_name], line 100 of the source.
The dict maps feature-name strings to label lists, so an integer key
(the featureIndex used when featureNames is absent) never matches. -/
def lookupFeatureCats (categoryNames : List (String × List String))
    (key : ℕ ⊕ String) : Option (List String) :=
  match key with
  | Sum.inl _ => none
  | Sum.inr name => (categoryNames.find? (fun q => q.1 == name)).map (fun q => q.2)

/-- The categories string built from per-feature labels, lines 100-104
of the source: each index is replaced by category_names[j], five per
line, lines joined with literal backslash-n, wrapped in braces; the
result is none when some index is beyond the label list (KeyError,
caught by the source). -/
def namedCategories (catLabels : List String) (leftCategories : List ℕ) :
    Option String :=
  match (chunksOf5 leftCategories).mapM
      (fun chunk => (chunk.mapM (fun j => catLabels.get? j)).map
        (String.intercalate ",")) with
  | some chunkStrs => some ("\x7b" ++ String.intercalate "\\n" chunkStrs ++ "\x7d")
  | none => none

/-- The categories string of a categorical split, lines 91-109 of the
source: labels are used when categoryNames holds the feature key and
every index; any lookup miss falls back to the raw integer rendering. -/
def categoriesStr (categoryNames : Option (List (String × List String)))
    (featureKey : ℕ ⊕ String) (leftCategories : List ℕ) : String :=
  match categoryNames with
  | none => rawCategories leftCategories
  | some cm =>
    match lookupFeatureCats cm featureKey with
    | none => rawCategories leftCategories
    | some labels =>
      match namedCategories labels leftCategories with
      | some s => s
      | none => rawCategories leftCategories

/-- The label of a continuous-split internal node, lines 112-119 of the
source.  The backslash-n pairs are the two-character escape sequences
the source writes into the DOT text. -/
def continuousLabel (i : ℕ) (featureNameS : String)
    (threshold impurity gain : ℚ) (classNameS : String) : String :=
  " label=\"Node ID " ++ toString i ++ "\\n" ++ featureNameS ++ " <= "
    ++ fmt4 threshold ++ "\\nImpurity = " ++ fmt4 impurity
    ++ "\\nGain = " ++ fmt4 gain ++ "\\nPrediction = " ++ classNameS ++ "\" "

/-- The label of a categorical-split internal node, lines 121-128 of the
source. -/
def categoricalLabel (i : ℕ) (featureNameS categories : String)
    (impurity gain : ℚ) (classNameS : String) : String :=
  " label=\"Node ID " ++ toString i ++ "\\n" ++ featureNameS ++ " in "
    ++ categories ++ "\\nImpurity = " ++ fmt4 impurity
    ++ "\\nGain = " ++ fmt4 gain ++ "\\nPrediction = " ++ classNameS ++ "\" "

/-- The label of a leaf node, lines 131-134 of the source. -/
def leafLabel (i : ℕ) (impurity : ℚ) (classNameS : String) : String :=
  " label=\"Node ID " ++ toString i ++ "\\nImpurity = " ++ fmt4 impurity
    ++ "\\nPrediction = " ++ classNameS ++ "\" "

/-- The fill colour attribute, line 145 of the source:
fillcolor="h,s,v" with each component formatted to four decimals. -/
def fillcolorAttr (h s : ℚ) : String :=
  "fillcolor=\"" ++ fmt4 h ++ "," ++ fmt4 s ++ "," ++ fmt4 1 ++ "\""

/-- The "id" entry of the node dict; KeyError when add_node_ids has not
run. -/
def getIdE (node : TreeNode) : Except String ℕ :=
  match node.idOf with
  | some i => Except.ok i
  | none => Except.error "KeyError: id"

/-- node_to_str, lines 21-151 of the source.  The nodeList side effect
is modelled by returning the extended list next to the returned id
string; a Python exception (KeyError from a name lookup or from a
missing id, IndexError from colorBrew) is an Except.error, and in that
case nodeList is unchanged, as the single append at line 148 runs last. -/
def node_to_str (node : TreeNode) (featureNames : Option (List String))
    (categoryNames : Option (List (String × List String)))
    (classNames : Option (List String)) (numClasses : ℕ)
    (nodeList : List String) (filled : Bool) (round_leaves : Bool)
    (colorBrew : List ℚ) : Except String (String × List String) := do
  let class_name_str ← classNameStrE classNames node.prediction
  let withFill (i : ℕ) (attributes : List String) :
      Except String (String × List String) := do
    let attributes ←
      if filled then
        match colorBrew.get? node.prediction with
        | some h => pure (attributes ++ [fillcolorAttr h (1 - node.impurity)])
        | none => Except.error "IndexError: colorBrew"
      else pure attributes
    pure (toString i,
      nodeList ++ [toString i ++ " [" ++ String.intercalate "," attributes ++ "]"])
  match node with
  | .internal _ _ imp fIdx split gain _ _ => do
    let fres ← featureNameE featureNames fIdx
    let i ← getIdE node
    let label :=
      match split with
      | .continuous thr => continuousLabel i fres.2 thr imp gain class_name_str
      | .categorical cats =>
        categoricalLabel i fres.2 (categoriesStr categoryNames fres.1 cats)
          imp gain class_name_str
    withFill i [label]
  | .leaf _ _ imp => do
    let i ← getIdE node
    let label := leafLabel i imp class_name_str
    withFill i ((if round_leaves then ["shape=ellipse"] else []) ++ [label])

/-- The while-loop of get_num_classes, lines 164-174 of the source: pop
the last element of nodes_to_explore (the head of this list, which keeps
the Python list reversed so that list.append/list.pop() become cons and
head), add its prediction to the classes set, and push the children of
an internal node (left then right, so the right child ends on top).  One
unit of fuel is one iteration; the loop runs totalSize-many iterations
plus the final empty-stack test. -/
def collectClassesF : ℕ → List TreeNode → Finset ℕ → Finset ℕ
  | 0, _, classes => classes
  | _ + 1, [], classes => classes
  | fuel + 1, current :: rest, classes =>
    match current with
    | .leaf _ p _ => collectClassesF fuel rest (insert p classes)
    | .internal _ p _ _ _ _ l r =>
      collectClassesF fuel (r :: l :: rest) (insert p classes)

/-- get_num_classes, lines 153-175 of the source: collect the set of all
prediction values and return max + 1. -/
def get_num_classes (node : TreeNode) : ℕ :=
  ((collectClassesF (node.size + 1) [node] ∅).max.unbot' 0) + 1

/-- Okasaki-style breadth-first relabelling of a forest, the functional
counterpart of the while-loop of add_node_ids (lines 189-202 of the
source): the head of the FIFO queue receives the next id, and the
children of an internal head are enqueued (left before right) at the end
of the queue.  The returned list holds the relabelled queue entries in
order, so dropping the processed prefix recovers the relabelled
children.  One unit of fuel per dequeued node. -/
def bfnF : ℕ → ℕ → List TreeNode → List TreeNode
  | 0, _, _ => []
  | _ + 1, _, [] => []
  | fuel + 1, i, t :: ts =>
    match t with
    | .leaf _ p imp => .leaf (some i) p imp :: bfnF fuel (i + 1) ts
    | .internal _ p imp fIdx sp g l r =>
      let rest := bfnF fuel (i + 1) (ts ++ [l, r])
      .internal (some i) p imp fIdx sp g
        ((rest.drop ts.length).headD l)
        ((rest.drop (ts.length + 1)).headD r)
        :: rest.take ts.length

/-- add_node_ids, lines 177-202 of the source: breadth-first ids
starting at 0, root first, each internal node enqueueing left then
right. -/
def add_node_ids (node : TreeNode) : TreeNode :=
  (bfnF (node.size + 1) 0 [node]).headD node

/-- The ids of a tree forest read back in the same FIFO order in which
add_node_ids assigns them: dequeue the head, read its id, enqueue the
children of an internal node left then right. -/
def bfsIdsF : ℕ → List TreeNode → List (Option ℕ)
  | 0, _ => []
  | _ + 1, [] => []
  | fuel + 1, t :: ts =>
    match t with
    | .leaf idv _ _ => idv :: bfsIdsF fuel ts
    | .internal idv _ _ _ _ _ l r => idv :: bfsIdsF fuel (ts ++ [l, r])

/-- The ids of a tree in breadth-first order. -/
def bfsIds (t : TreeNode) : List (Option ℕ) := bfsIdsF (t.size + 1) [t]

/-- The while-loop of relations_to_str, lines 249-274 of the source: pop
the last element of nodes_to_explore (head here; the list is kept
reversed as in collectClassesF), skip leaves, and for an internal node
emit the True edge to the left child, push the left child, emit the
False edge to the right child, push the right child (so the right child
ends on top).  Each edge emission calls node_to_str on both endpoints,
which appends their statements to nodeList; an exception from
node_to_str propagates.  Returns the relations list and the final
nodeList. -/
def relLoopF (featureNames : Option (List String))
    (categoryNames : Option (List (String × List String)))
    (classNames : Option (List String)) (numClasses : ℕ)
    (filled : Bool) (roundLeaves : Bool) (color_brew : List ℚ) :
    ℕ → List TreeNode → List String →
      Except String (List String × List String)
  | 0, _, _ => Except.error "fuel exhausted"
  | _ + 1, [], nodeList => Except.ok ([], nodeList)
  | fuel + 1, current :: rest, nodeList =>
    match current with
    | .leaf _ _ _ =>
      relLoopF featureNames categoryNames classNames numClasses filled
        roundLeaves color_brew fuel rest nodeList
    | .internal _ _ _ _ _ _ l r => do
      let res1 ← node_to_str current featureNames categoryNames classNames
        numClasses nodeList filled roundLeaves color_brew
      let res2 ← node_to_str l featureNames categoryNames classNames
        numClasses res1.2 filled roundLeaves color_brew
      let rel1 := res1.1 ++ "->" ++ res2.1
        ++ "[labeldistance=2.5, labelangle=45., headlabel=\"True\"]" ++ "\n"
      let res3 ← node_to_str current featureNames categoryNames classNames
        numClasses res2.2 filled roundLeaves color_brew
      let res4 ← node_to_str r featureNames categoryNames classNames
        numClasses res3.2 filled roundLeaves color_brew
      let rel2 := res3.1 ++ "->" ++ res4.1
        ++ "[labeldistance=2.5, labelangle=-45., headlabel=\"False\"]" ++ "\n"
      let res5 ← relLoopF featureNames categoryNames classNames numClasses
        filled roundLeaves color_brew fuel (r :: l :: rest) res4.2
      Except.ok (rel1 :: rel2 :: res5.1, res5.2)

/-- relations_to_str, lines 204-274 of the source, with the nodeList
side effect returned next to the relations list. -/
def relations_to_str (node : TreeNode) (featureNames : Option (List String))
    (categoryNames : Option (List (String × List String)))
    (classNames : Option (List String)) (numClasses : ℕ)
    (nodeList : List String) (filled : Bool) (roundLeaves : Bool)
    (color_brew : List ℚ) : Except String (List String × List String) :=
  relLoopF featureNames categoryNames classNames numClasses filled
    roundLeaves color_brew (node.size + 1) [node] nodeList

/-- The set of predictions of all nodes of a tree, structurally. -/
def predsF : TreeNode → Finset ℕ
  | .leaf _ p _ => {p}
  | .internal _ p _ _ _ _ l r => insert p (predsF l ∪ predsF r)

/-- The largest prediction value occurring in a tree. -/
def maxPred : TreeNode → ℕ
  | .leaf _ p _ => p
  | .internal _ p _ _ _ _ l r => max p (max (maxPred l) (maxPred r))

/-- The shape of a tree: everything except the node contents. -/
inductive BShape : Type where
  | lf
  | nd (l r : BShape)
deriving DecidableEq, Repr

/-- The shape of a tree node. -/
def shapeOf : TreeNode → BShape
  | .leaf _ _ _ => .lf
  | .internal _ _ _ _ _ _ l r => .nd (shapeOf l) (shapeOf r)

/-- Number of nodes of a shape. -/
def sizeS : BShape → ℕ
  | .lf => 1
  | .nd l r => 1 + sizeS l + sizeS r

/-- A tree shape decorated with the assigned ids only. -/
inductive IdShape : Type where
  | lf (i : Option ℕ)
  | nd (i : Option ℕ) (l r : IdShape)
deriving DecidableEq, Repr

/-- The ids of a tree with its shape, forgetting all other content. -/
def idTreeOf : TreeNode → IdShape
  | .leaf i _ _ => .lf i
  | .internal i _ _ _ _ _ l r => .nd i (idTreeOf l) (idTreeOf r)

/-- bfnF on bare shapes: the same breadth-first id assignment computed
from the shape alone.  Follows the spec's words that ids are
"determined purely by tree shape and traversal order". -/
def bfnShapeF : ℕ → ℕ → List BShape → List IdShape
  | 0, _, _ => []
  | _ + 1, _, [] => []
  | fuel + 1, i, s :: ss =>
    match s with
    | .lf => .lf (some i) :: bfnShapeF fuel (i + 1) ss
    | .nd l r =>
      let rest := bfnShapeF fuel (i + 1) (ss ++ [l, r])
      .nd (some i)
        ((rest.drop ss.length).headD (.lf none))
        ((rest.drop (ss.length + 1)).headD (.lf none))
        :: rest.take ss.length

/-- The breadth-first id assignment computed from a shape alone. -/
def addIdsOfShape (s : BShape) : IdShape :=
  (bfnShapeF (sizeS s + 1) 0 [s]).headD (.lf none)

/-- Swap the two children of the root, the reordering discussed by the
spec for re-running add_node_ids. -/
def swapChildren : TreeNode → TreeNode
  | .leaf i p m => .leaf i p m
  | .internal i p m fIdx sp g l r => .internal i p m fIdx sp g r l

/-- A 7-node full binary tree (3 internal nodes, 4 leaves), before id
assignment.  Predictions use both classes 0 and 1. -/
def t7base : TreeNode :=
  .internal none 0 (1/2) 0 (.continuous (1/2)) (1/10)
    (.internal none 0 (2/5) 1 (.continuous (3/2)) (1/10)
      (.leaf none 0 (1/10)) (.leaf none 1 (1/5)))
    (.internal none 1 (2/5) 2 (.continuous (5/2)) (1/10)
      (.leaf none 0 (3/10)) (.leaf none 1 (1/4)))

/-- The 7-node tree with its breadth-first ids assigned. -/
def t7 : TreeNode := add_node_ids t7base

example : fmt4 (3 / 2) = "1.5000" := by decide

example : fmt4 (8 / 25) = "0.3200" := by decide

example : fmt4 1 = "1.0000" := by decide

example : fmt4 (-(1 / 2)) = "-0.5000" := by decide

example : chunksOf5 [0, 1, 2, 3, 4, 5, 6] = [[0, 1, 2, 3, 4], [5, 6]] := by decide

/-- C1 counterexample: rendering the 7-node full binary tree appends 12
node statement entries to the node-statement collection counting
duplicates (4 per internal node: the parent twice as edge source and
each child once as edge target), not the 7 the claim states. -/
theorem c1_seven_node_statement_count_refuted :
    (relations_to_str t7 none none none 2 [] true true
        (generate_color_brew 2)).map (fun res => res.2.length) = Except.ok 12
    ∧ ¬ ((relations_to_str t7 none none none 2 [] true true
        (generate_color_brew 2)).map (fun res => res.2.length) = Except.ok 7) := by
  decide

/-- C1 amended: rendering the 7-node full binary tree (ids 0..6 assigned
breadth-first) produces exactly 6 edges, one True-annotated and one
False-annotated per internal node 0, 1 and 2, and appends 12 node
statement entries counting duplicates from multi-visit nodes, 7 of which
are distinct (one per node id after de-duplication). -/
theorem c1_seven_node_tree_rendering :
    (relations_to_str t7 none none none 2 [] true true
        (generate_color_brew 2)).map (fun res => res.1) = Except.ok
      ["0->1[labeldistance=2.5, labelangle=45., headlabel=\"True\"]\n",
       "0->2[labeldistance=2.5, labelangle=-45., headlabel=\"False\"]\n",
       "2->5[labeldistance=2.5, labelangle=45., headlabel=\"True\"]\n",
       "2->6[labeldistance=2.5, labelangle=-45., headlabel=\"False\"]\n",
       "1->3[labeldistance=2.5, labelangle=45., headlabel=\"True\"]\n",
       "1->4[labeldistance=2.5, labelangle=-45., headlabel=\"False\"]\n"]
    ∧ (relations_to_str t7 none none none 2 [] true true
        (generate_color_brew 2)).map (fun res => res.2.length) = Except.ok 12
    ∧ (relations_to_str t7 none none none 2 [] true true
        (generate_color_brew 2)).map (fun res => res.2.dedup.length)
      = Except.ok 7 := by
  decide

/-- C5: formatting a continuous-split internal node with no featureNames
and no classNames yields the statement whose label text contains, in
this order, Node ID i, the split description "Feature #fIdx <= threshold"
with the threshold at four decimals, "Impurity =", "Gain =" and
"Prediction = Class #p", all at four decimals; the second conjunct
witnesses the order and the exact texts on the spec's concrete node
(featureIndex 2, threshold 1.5, impurity 0.32, gain 0.1, prediction 0). -/
theorem c5_continuous_internal_label (i p fIdx : ℕ) (imp thr g : ℚ)
    (lc rc : TreeNode) (catN : Option (List (String × List String)))
    (nC : ℕ) (nl : List String) (rl : Bool) (cb : List ℚ) :
    node_to_str (.internal (some i) p imp fIdx (.continuous thr) g lc rc)
        none catN none nC nl false rl cb
      = Except.ok (toString i, nl ++ [toString i ++ " ["
          ++ (" label=\"Node ID " ++ toString i ++ "\\n"
            ++ ("Feature #" ++ toString fIdx) ++ " <= " ++ fmt4 thr
            ++ "\\nImpurity = " ++ fmt4 imp ++ "\\nGain = " ++ fmt4 g
            ++ "\\nPrediction = " ++ ("Class #" ++ toString p) ++ "\" ")
          ++ "]"])
    ∧ ∃ a b c d e f : String,
      node_to_str (.internal (some 0) 0 (8/25) 2 (.continuous (3/2)) (1/10)
          (.leaf none 0 0) (.leaf none 0 0)) none none none 1 [] false true []
        = Except.ok ("0", [a ++ "Node ID 0" ++ b ++ "Feature #2 <= 1.5000"
            ++ c ++ "Impurity = 0.3200" ++ d ++ "Gain = 0.1000"
            ++ e ++ "Prediction = Class #0" ++ f]) := by
  constructor
  · rfl
  · exact ⟨"0 [ label=\"", "\\n", "\\n", "\\n", "\\n", "\" ]", by decide⟩

/-- C10: when classNames is provided but too short for some node's
prediction, or featureNames is provided but too short for an internal
node's featureIndex, formatting the node fails with a lookup error
(KeyError) instead of falling back to "Class #i" / "Feature #i"; the
index-based fallback is produced exactly when the corresponding name
list is absent, shown here for a leaf and for a continuous internal
node. -/
theorem c10_short_name_lists_error (node : TreeNode) (cns fns : List String)
    (i p fIdx : ℕ) (imp thr g : ℚ) (lc rc : TreeNode)
    (fN : Option (List String)) (catN : Option (List (String × List String)))
    (nC : ℕ) (nl : List String) (fl rl : Bool) (cb : List ℚ) :
    (cns.length ≤ node.prediction →
      ∃ e, node_to_str node fN catN (some cns) nC nl fl rl cb = Except.error e)
    ∧ (fns.length ≤ fIdx →
      ∃ e, node_to_str (.internal (some i) p imp fIdx (.continuous thr) g lc rc)
        (some fns) catN none nC nl fl rl cb = Except.error e)
    ∧ node_to_str (.leaf (some i) p imp) none catN none nC nl false rl cb
      = Except.ok (toString i, nl ++ [toString i ++ " ["
          ++ String.intercalate ","
            ((if rl then ["shape=ellipse"] else [])
              ++ [" label=\"Node ID " ++ toString i ++ "\\nImpurity = "
                ++ fmt4 imp ++ "\\nPrediction = "
                ++ ("Class #" ++ toString p) ++ "\" "]) ++ "]"])
    ∧ node_to_str (.internal (some i) p imp fIdx (.continuous thr) g lc rc)
        none catN none nC nl false rl cb
      = Except.ok (toString i, nl ++ [toString i ++ " ["
          ++ (" label=\"Node ID " ++ toString i ++ "\\n"
            ++ ("Feature #" ++ toString fIdx) ++ " <= " ++ fmt4 thr
            ++ "\\nImpurity = " ++ fmt4 imp ++ "\\nGain = " ++ fmt4 g
            ++ "\\nPrediction = " ++ ("Class #" ++ toString p) ++ "\" ")
          ++ "]"]) := by
  refine ⟨fun hcls => ?_, fun hfeat => ?_, ?_, ?_⟩
  · refine ⟨"KeyError: prediction " ++ toString node.prediction, ?_⟩
    have hget : cns[node.prediction]? = none := List.getElem?_eq_none hcls
    simp [node_to_str, classNameStrE, hget, Bind.bind, Except.bind]
  · refine ⟨"KeyError: featureIndex " ++ toString fIdx, ?_⟩
    have hget : fns[fIdx]? = none := List.getElem?_eq_none hfeat
    simp [node_to_str, classNameStrE, featureNameE, hget, TreeNode.prediction,
      Bind.bind, Except.bind]
  · cases rl <;> rfl
  · rfl

/-- C10 witness: with classNames = ["only"] and a leaf predicting class
3, and with featureNames = ["f0"] and an internal node splitting on
feature 2, formatting errors; the same nodes format fine with the lists
absent. -/
theorem c10_short_name_lists_error_witness :
    ∃ e, node_to_str (.leaf (some 0) 3 0) none none (some ["only"]) 4 []
      false true [] = Except.error e :=
  (c10_short_name_lists_error (.leaf (some 0) 3 0) ["only"] ["f0"] 0 3 2 0 0 0
    (.leaf none 0 0) (.leaf none 0 0) none none 4 [] false true []).1
    (by decide)

/-- C7: when filled is true, the statement emitted for any node (leaf or
internal) carries as last attribute fillcolor="h,s,v" with hue
h = colorBrew[prediction], saturation s = 1 - impurity and value 1.0,
each at four decimals; the second conjunct shows an impurity outside
[0,1] (3/2) is not validated and yields the out-of-range saturation
-0.5000. -/
theorem c7_fillcolor_attribute (node : TreeNode) (i : ℕ) (h : ℚ)
    (catN : Option (List (String × List String))) (nC : ℕ)
    (nl : List String) (rl : Bool) (cb : List ℚ)
    (hid : node.idOf = some i) (hcb : cb.get? node.prediction = some h) :
    (∃ attrs : List String, node_to_str node none catN none nC nl true rl cb
      = Except.ok (toString i, nl ++ [toString i ++ " ["
          ++ String.intercalate "," (attrs
            ++ ["fillcolor=\"" ++ fmt4 h ++ "," ++ fmt4 (1 - node.impurity)
              ++ "," ++ "1.0000" ++ "\""]) ++ "]"]))
    ∧ node_to_str (.leaf (some 0) 0 (3/2)) none none none 1 [] true false [0]
      = Except.ok ("0",
        ["0 [ label=\"Node ID 0\\nImpurity = 1.5000\\nPrediction = Class #0\" ,fillcolor=\"0.0000,-0.5000,1.0000\"]"]) := by
  have hfmt1 : fmt4 1 = "1.0000" := by decide
  have hcb2 : cb[node.prediction]? = some h := by
    rw [← List.get?_eq_getElem?]; exact hcb
  constructor
  · rcases node with ⟨idv, p, m⟩ | ⟨idv, p, m, fi, sp, gg, lc2, rc2⟩
    · simp only [TreeNode.idOf] at hid
      subst hid
      refine ⟨(if rl then ["shape=ellipse"] else [])
        ++ [leafLabel i m ("Class #" ++ toString p)], ?_⟩
      simp only [TreeNode.prediction, TreeNode.impurity] at hcb2 ⊢
      simp [node_to_str, classNameStrE, getIdE, TreeNode.idOf,
        TreeNode.prediction, TreeNode.impurity, hcb2, fillcolorAttr, hfmt1,
        Bind.bind, Except.bind, Pure.pure, Except.pure]
    · simp only [TreeNode.idOf] at hid
      subst hid
      rcases sp with thr | cats
      · refine ⟨[continuousLabel i ("Feature #" ++ toString fi) thr m gg
          ("Class #" ++ toString p)], ?_⟩
        simp only [TreeNode.prediction, TreeNode.impurity] at hcb2 ⊢
        simp [node_to_str, classNameStrE, featureNameE, getIdE, TreeNode.idOf,
          TreeNode.prediction, TreeNode.impurity, hcb2, fillcolorAttr, hfmt1,
          Bind.bind, Except.bind, Pure.pure, Except.pure]
      · refine ⟨[categoricalLabel i ("Feature #" ++ toString fi)
          (categoriesStr catN (Sum.inl fi) cats) m gg
          ("Class #" ++ toString p)], ?_⟩
        simp only [TreeNode.prediction, TreeNode.impurity] at hcb2 ⊢
        simp [node_to_str, classNameStrE, featureNameE, getIdE, TreeNode.idOf,
          TreeNode.prediction, TreeNode.impurity, hcb2, fillcolorAttr, hfmt1,
          Bind.bind, Except.bind, Pure.pure, Except.pure]
  · decide

/-- C7 witness: the general statement applied to a concrete leaf with
prediction 1, impurity 1/4 and colorBrew [0, 1/2]. -/
theorem c7_fillcolor_attribute_witness :
    ∃ attrs : List String,
      node_to_str (.leaf (some 4) 1 (1/4)) none none none 2 [] true true
        [0, 1/2]
      = Except.ok (toString 4, [] ++ [toString 4 ++ " ["
          ++ String.intercalate "," (attrs
            ++ ["fillcolor=\"" ++ fmt4 (1/2) ++ ","
              ++ fmt4 (1 - (TreeNode.leaf (some 4) 1 (1/4)).impurity)
              ++ "," ++ "1.0000" ++ "\""]) ++ "]"]) :=
  (c7_fillcolor_attribute (.leaf (some 4) 1 (1/4)) 4 (1/2) none 2 [] true
    [0, 1/2] (by decide) (by decide)).1

theorem chunksOf5Aux_take_drop {α : Type} :
    ∀ (l acc : List α), acc.length < 5 → (acc = [] → l ≠ []) →
      chunksOf5Aux l acc = (acc ++ l).take 5 :: chunksOf5 ((acc ++ l).drop 5) := by
  intro l
  induction l with
  | nil =>
    intro acc hlen hne
    have hacc : ¬ acc.isEmpty = true := by
      cases acc with
      | nil => exact absurd rfl (hne rfl)
      | cons a t => simp
    simp only [chunksOf5Aux, if_neg hacc, List.append_nil]
    rw [List.take_of_length_le (le_of_lt hlen),
      List.drop_eq_nil_of_le (le_of_lt hlen)]
    rfl
  | cons x xs IH =>
    intro acc hlen hne
    simp only [chunksOf5Aux]
    by_cases h5 : (acc ++ [x]).length = 5
    · simp only [if_pos h5]
      have ht : ((acc ++ [x]) ++ xs).take 5 = acc ++ [x] := by
        rw [← h5]; exact List.take_left (acc ++ [x]) xs
      have hd : ((acc ++ [x]) ++ xs).drop 5 = xs := by
        rw [← h5]; exact List.drop_left (acc ++ [x]) xs
      rw [List.append_assoc] at ht hd
      simp only [List.singleton_append] at ht hd
      rw [ht, hd]
      rfl
    · simp only [if_neg h5]
      have hlen2 : (acc ++ [x]).length < 5 := by
        simp only [List.length_append, List.length_singleton] at h5 ⊢
        omega
      have := IH (acc ++ [x]) hlen2 (by simp)
      rw [this, List.append_assoc]
      simp only [List.singleton_append]

/-- The first emitted chunk holds the first five values, and the rest of
the chunking continues on the remaining values, mirroring the
range(0, len, 5) slicing of the source. -/
theorem chunksOf5_take_drop {α : Type} (l : List α) (hl : l ≠ []) :
    chunksOf5 l = l.take 5 :: chunksOf5 (l.drop 5) := by
  have := chunksOf5Aux_take_drop l [] (by simp) (fun _ => hl)
  simpa [chunksOf5] using this

theorem chunksOf5_flatten_le {α : Type} :
    ∀ (n : ℕ) (l : List α), l.length ≤ n → (chunksOf5 l).flatten = l := by
  intro n
  induction n with
  | zero =>
    intro l hl
    have : l = [] := List.eq_nil_of_length_eq_zero (Nat.le_zero.mp hl)
    subst this; rfl
  | succ n IH =>
    intro l hl
    cases l with
    | nil => rfl
    | cons x xs =>
      rw [chunksOf5_take_drop (x :: xs) (by simp), List.flatten_cons, IH]
      · exact List.take_append_drop 5 (x :: xs)
      · simp only [List.length_drop, List.length_cons] at hl ⊢
        omega

/-- The chunks of five flatten back to the original list. -/
theorem chunksOf5_flatten {α : Type} (l : List α) :
    (chunksOf5 l).flatten = l :=
  chunksOf5_flatten_le l.length l le_rfl

theorem option_mapM_eq_none {α β : Type} (f : α → Option β) :
    ∀ (L : List α) (a : α), a ∈ L → f a = none → L.mapM f = none := by
  intro L
  induction L with
  | nil => intro a ha; cases ha
  | cons x t IH =>
    intro a ha hfa
    rcases List.mem_cons.mp ha with rfl | hmem
    · rw [List.mapM_cons, hfa]; rfl
    · cases hfx : f x with
      | none => rw [List.mapM_cons, hfx]; rfl
      | some b => rw [List.mapM_cons, hfx, IH a hmem hfa]; rfl

/-- A category index beyond the end of the label list makes the whole
labelled rendering fail (the KeyError of line 103 of the source). -/
theorem namedCategories_eq_none (labels : List String) (cats : List ℕ)
    (j : ℕ) (hj : j ∈ cats) (hnone : labels.get? j = none) :
    namedCategories labels cats = none := by
  have hj2 : j ∈ (chunksOf5 cats).flatten := by
    rw [chunksOf5_flatten]; exact hj
  obtain ⟨ch, hch, hjch⟩ := List.mem_flatten.mp hj2
  have hchunk : (ch.mapM (fun k => labels.get? k)).map
      (String.intercalate ",") = none := by
    rw [option_mapM_eq_none (fun k => labels.get? k) ch j hjch hnone]
    rfl
  have houter := option_mapM_eq_none
    (fun chunk => (chunk.mapM (fun k => labels.get? k)).map
      (String.intercalate ","))
    (chunksOf5 cats) ch hch hchunk
  simp only [namedCategories, houter]

theorem intercalate_singleton (s x : String) : String.intercalate s [x] = x := rfl

/-- C8: rendering a categorical-split internal node never fails on
category lookups.  The label wraps the left-category list in braces,
five values per line joined by literal backslash-n escapes: when
categoryNames is absent (first conjunct), or present but keyed by
strings while the feature key is the raw featureIndex integer (second
conjunct), or lacking the feature's name (third conjunct), or lacking
some category index (fourth conjunct), the raw integer indices are
rendered; when the feature name and every index resolve, the values are
the categoryNames[feature][index] labels (fifth conjunct).  The last
conjunct restates the chunks-of-five slicing. -/
theorem c8_categorical_fallback (i p fi j : ℕ) (imp g : ℚ) (cats : List ℕ)
    (lc rc : TreeNode) (nC : ℕ) (nl : List String) (rl : Bool)
    (fns : List String) (name : String) (cm : List (String × List String))
    (labels chunkStrs : List String) :
    (node_to_str (.internal (some i) p imp fi (.categorical cats) g lc rc)
        none none none nC nl false rl []
      = Except.ok (toString i, nl ++ [toString i ++ " ["
          ++ (" label=\"Node ID " ++ toString i ++ "\\n"
            ++ ("Feature #" ++ toString fi) ++ " in " ++ rawCategories cats
            ++ "\\nImpurity = " ++ fmt4 imp ++ "\\nGain = " ++ fmt4 g
            ++ "\\nPrediction = " ++ ("Class #" ++ toString p) ++ "\" ")
          ++ "]"]))
    ∧ (node_to_str (.internal (some i) p imp fi (.categorical cats) g lc rc)
        none (some cm) none nC nl false rl []
      = Except.ok (toString i, nl ++ [toString i ++ " ["
          ++ (" label=\"Node ID " ++ toString i ++ "\\n"
            ++ ("Feature #" ++ toString fi) ++ " in " ++ rawCategories cats
            ++ "\\nImpurity = " ++ fmt4 imp ++ "\\nGain = " ++ fmt4 g
            ++ "\\nPrediction = " ++ ("Class #" ++ toString p) ++ "\" ")
          ++ "]"]))
    ∧ (fns.get? fi = some name →
      cm.find? (fun q => q.1 == name) = none →
      node_to_str (.internal (some i) p imp fi (.categorical cats) g lc rc)
        (some fns) (some cm) none nC nl false rl []
      = Except.ok (toString i, nl ++ [toString i ++ " ["
          ++ (" label=\"Node ID " ++ toString i ++ "\\n"
            ++ name ++ " in " ++ rawCategories cats
            ++ "\\nImpurity = " ++ fmt4 imp ++ "\\nGain = " ++ fmt4 g
            ++ "\\nPrediction = " ++ ("Class #" ++ toString p) ++ "\" ")
          ++ "]"]))
    ∧ (fns.get? fi = some name →
      lookupFeatureCats cm (Sum.inr name) = some labels →
      j ∈ cats → labels.get? j = none →
      node_to_str (.internal (some i) p imp fi (.categorical cats) g lc rc)
        (some fns) (some cm) none nC nl false rl []
      = Except.ok (toString i, nl ++ [toString i ++ " ["
          ++ (" label=\"Node ID " ++ toString i ++ "\\n"
            ++ name ++ " in " ++ rawCategories cats
            ++ "\\nImpurity = " ++ fmt4 imp ++ "\\nGain = " ++ fmt4 g
            ++ "\\nPrediction = " ++ ("Class #" ++ toString p) ++ "\" ")
          ++ "]"]))
    ∧ (fns.get? fi = some name →
      lookupFeatureCats cm (Sum.inr name) = some labels →
      (chunksOf5 cats).mapM
          (fun chunk => (chunk.mapM (fun k => labels.get? k)).map
            (String.intercalate ",")) = some chunkStrs →
      node_to_str (.internal (some i) p imp fi (.categorical cats) g lc rc)
        (some fns) (some cm) none nC nl false rl []
      = Except.ok (toString i, nl ++ [toString i ++ " ["
          ++ (" label=\"Node ID " ++ toString i ++ "\\n"
            ++ name ++ " in "
            ++ ("\x7b" ++ String.intercalate "\\n" chunkStrs ++ "\x7d")
            ++ "\\nImpurity = " ++ fmt4 imp ++ "\\nGain = " ++ fmt4 g
            ++ "\\nPrediction = " ++ ("Class #" ++ toString p) ++ "\" ")
          ++ "]"]))
    ∧ (∀ l : List ℕ, l ≠ [] → chunksOf5 l = l.take 5 :: chunksOf5 (l.drop 5)) := by
  refine ⟨rfl, rfl, fun hf hfind => ?_, fun hf hlk hj hnone => ?_,
    fun hf hlk hmm => ?_, fun l hl => chunksOf5_take_drop l hl⟩
  · have hf2 : fns[fi]? = some name := by
      rw [← List.get?_eq_getElem?]; exact hf
    simp [node_to_str, classNameStrE, featureNameE, getIdE, TreeNode.idOf,
      TreeNode.prediction, hf2, categoriesStr, lookupFeatureCats, hfind,
      categoricalLabel, intercalate_singleton,
      Bind.bind, Except.bind, Pure.pure, Except.pure]
  · have hf2 : fns[fi]? = some name := by
      rw [← List.get?_eq_getElem?]; exact hf
    have hnc := namedCategories_eq_none labels cats j hj hnone
    simp [node_to_str, classNameStrE, featureNameE, getIdE, TreeNode.idOf,
      TreeNode.prediction, hf2, categoriesStr, hlk, hnc,
      categoricalLabel, intercalate_singleton,
      Bind.bind, Except.bind, Pure.pure, Except.pure]
  · have hf2 : fns[fi]? = some name := by
      rw [← List.get?_eq_getElem?]; exact hf
    have hnc : namedCategories labels cats
        = some ("\x7b" ++ String.intercalate "\\n" chunkStrs ++ "\x7d") := by
      simp only [namedCategories, hmm]
    simp [node_to_str, classNameStrE, featureNameE, getIdE, TreeNode.idOf,
      TreeNode.prediction, hf2, categoriesStr, hlk, hnc,
      categoricalLabel, intercalate_singleton,
      Bind.bind, Except.bind, Pure.pure, Except.pure]

/-- C8 witness: feature "color" with categories ["red","green","blue"],
left categories [0, 2]: the label renders \x7bred,blue\x7d from the
category names. -/
theorem c8_categorical_fallback_witness :
    node_to_str (.internal (some 1) 0 (1/2) 0
        (.categorical [0, 2]) (1/10) (.leaf none 0 0) (.leaf none 0 0))
      (some ["color"]) (some [("color", ["red", "green", "blue"])]) none 1 []
      false true []
    = Except.ok (toString 1, [] ++ [toString 1 ++ " ["
        ++ (" label=\"Node ID " ++ toString 1 ++ "\\n"
          ++ "color" ++ " in "
          ++ ("\x7b" ++ String.intercalate "\\n" ["red,blue"] ++ "\x7d")
          ++ "\\nImpurity = " ++ fmt4 (1/2) ++ "\\nGain = " ++ fmt4 (1/10)
          ++ "\\nPrediction = " ++ ("Class #" ++ toString 0) ++ "\" ")
        ++ "]"]) :=
  ((((((c8_categorical_fallback 1 0 0 0 (1/2) (1/10) [0, 2]
    (.leaf none 0 0) (.leaf none 0 0) 1 [] true
    ["color"] "color" [("color", ["red", "green", "blue"])]
    ["red", "green", "blue"] ["red,blue"]).2).2).2).2).1)
    (by decide) (by decide) (by decide)

/-- C2: one iteration of the rendering loop.  Popping an internal node
emits exactly two edge statements, parent to left child suffixed with
labelangle=45. (positive) and headlabel "True", then parent to right
child suffixed with labelangle=-45. (negative) and headlabel "False",
and continues with both children pushed, left then right, so the right
child is on top of the stack; popping a leaf emits no edge and leaves
everything else unchanged. -/
theorem c2_traversal_step (fN : Option (List String))
    (catN : Option (List (String × List String))) (clN : Option (List String))
    (nC : ℕ) (fl rl : Bool) (cb : List ℚ) (fuel : ℕ)
    (a : Option ℕ) (p : ℕ) (imp : ℚ) (fi : ℕ) (sp : SplitType) (g : ℚ)
    (l r : TreeNode) (st : List TreeNode) (nl nl1 nl2 nl3 nl4 : List String)
    (pid1 lid pid2 rid : String)
    (h1 : node_to_str (.internal a p imp fi sp g l r) fN catN clN nC nl fl rl cb
      = Except.ok (pid1, nl1))
    (h2 : node_to_str l fN catN clN nC nl1 fl rl cb = Except.ok (lid, nl2))
    (h3 : node_to_str (.internal a p imp fi sp g l r) fN catN clN nC nl2 fl rl cb
      = Except.ok (pid2, nl3))
    (h4 : node_to_str r fN catN clN nC nl3 fl rl cb = Except.ok (rid, nl4)) :
    (relLoopF fN catN clN nC fl rl cb (fuel + 1)
        (.internal a p imp fi sp g l r :: st) nl
      = (relLoopF fN catN clN nC fl rl cb fuel (r :: l :: st) nl4).map
          (fun res =>
            ((pid1 ++ "->" ++ lid
                ++ "[labeldistance=2.5, labelangle=45., headlabel=\"True\"]"
                ++ "\n")
              :: (pid2 ++ "->" ++ rid
                ++ "[labeldistance=2.5, labelangle=-45., headlabel=\"False\"]"
                ++ "\n")
              :: res.1, res.2)))
    ∧ (∀ (li : Option ℕ) (lp : ℕ) (lm : ℚ),
      relLoopF fN catN clN nC fl rl cb (fuel + 1) (.leaf li lp lm :: st) nl
        = relLoopF fN catN clN nC fl rl cb fuel st nl) := by
  constructor
  · cases hr : relLoopF fN catN clN nC fl rl cb fuel (r :: l :: st) nl4 with
    | error e =>
      simp [relLoopF, h1, h2, h3, h4, hr, Bind.bind, Except.bind,
        Pure.pure, Except.pure, Except.map]
    | ok pr =>
      simp [relLoopF, h1, h2, h3, h4, hr, Bind.bind, Except.bind,
        Pure.pure, Except.pure, Except.map]
  · intro li lp lm
    rfl

/-- C2 witness: the internal-node step applied to a concrete 3-node tree
with both node_to_str hypotheses computed. -/
theorem c2_traversal_step_witness :
    relLoopF none none none 1 false true [] 3
      [.internal (some 0) 0 (1/2) 0 (.continuous (1/2)) (1/10)
        (.leaf (some 1) 0 (1/2)) (.leaf (some 2) 1 (1/2))] []
    = (relLoopF none none none 1 false true [] 2
        [.leaf (some 2) 1 (1/2), .leaf (some 1) 0 (1/2)]
        ["0 [ label=\"Node ID 0\\nFeature #0 <= 0.5000\\nImpurity = 0.5000\\nGain = 0.1000\\nPrediction = Class #0\" ]",
         "1 [shape=ellipse, label=\"Node ID 1\\nImpurity = 0.5000\\nPrediction = Class #0\" ]",
         "0 [ label=\"Node ID 0\\nFeature #0 <= 0.5000\\nImpurity = 0.5000\\nGain = 0.1000\\nPrediction = Class #0\" ]",
         "2 [shape=ellipse, label=\"Node ID 2\\nImpurity = 0.5000\\nPrediction = Class #1\" ]"]).map
        (fun res =>
          (("0" ++ "->" ++ "1"
              ++ "[labeldistance=2.5, labelangle=45., headlabel=\"True\"]"
              ++ "\n")
            :: ("0" ++ "->" ++ "2"
              ++ "[labeldistance=2.5, labelangle=-45., headlabel=\"False\"]"
              ++ "\n")
            :: res.1, res.2)) :=
  (c2_traversal_step none none none 1 false true [] 2
    (some 0) 0 (1/2) 0 (.continuous (1/2)) (1/10)
    (.leaf (some 1) 0 (1/2)) (.leaf (some 2) 1 (1/2)) [] []
    ["0 [ label=\"Node ID 0\\nFeature #0 <= 0.5000\\nImpurity = 0.5000\\nGain = 0.1000\\nPrediction = Class #0\" ]"]
    ["0 [ label=\"Node ID 0\\nFeature #0 <= 0.5000\\nImpurity = 0.5000\\nGain = 0.1000\\nPrediction = Class #0\" ]",
     "1 [shape=ellipse, label=\"Node ID 1\\nImpurity = 0.5000\\nPrediction = Class #0\" ]"]
    ["0 [ label=\"Node ID 0\\nFeature #0 <= 0.5000\\nImpurity = 0.5000\\nGain = 0.1000\\nPrediction = Class #0\" ]",
     "1 [shape=ellipse, label=\"Node ID 1\\nImpurity = 0.5000\\nPrediction = Class #0\" ]",
     "0 [ label=\"Node ID 0\\nFeature #0 <= 0.5000\\nImpurity = 0.5000\\nGain = 0.1000\\nPrediction = Class #0\" ]"]
    ["0 [ label=\"Node ID 0\\nFeature #0 <= 0.5000\\nImpurity = 0.5000\\nGain = 0.1000\\nPrediction = Class #0\" ]",
     "1 [shape=ellipse, label=\"Node ID 1\\nImpurity = 0.5000\\nPrediction = Class #0\" ]",
     "0 [ label=\"Node ID 0\\nFeature #0 <= 0.5000\\nImpurity = 0.5000\\nGain = 0.1000\\nPrediction = Class #0\" ]",
     "2 [shape=ellipse, label=\"Node ID 2\\nImpurity = 0.5000\\nPrediction = Class #1\" ]"]
    "0" "1" "0" "2" (by decide) (by decide) (by decide) (by decide)).1

/-- C6: for positive n, generate_color_brew returns exactly n hues, the
i-th being i * (1/n), all in the half-open interval from 0 to 1; in
particular generate_color_brew 4 is [0, 1/4, 1/2, 3/4]. -/
theorem c6_color_brew (n : ℕ) (hn : 0 < n) :
    (generate_color_brew n).length = n
    ∧ generate_color_brew n
      = (List.range n).map (fun i : ℕ => (i : ℚ) * (1 / (n : ℚ)))
    ∧ (∀ x ∈ generate_color_brew n, 0 ≤ x ∧ x < 1)
    ∧ generate_color_brew 4 = [0, 1/4, 1/2, 3/4] := by
  have hn0 : (n : ℚ) ≠ 0 := Nat.cast_ne_zero.mpr hn.ne'
  have hmap : generate_color_brew n
      = (List.range n).map (fun i : ℕ => (i : ℚ) * (1 / (n : ℚ))) := by
    simp only [generate_color_brew]
    refine List.map_congr_left ?_
    intro i _
    field_simp
    ring
  refine ⟨?_, hmap, ?_, by decide⟩
  · rw [hmap]
    simp
  · intro x hx
    rw [hmap] at hx
    simp only [List.mem_map, List.mem_range] at hx
    obtain ⟨i, hi, rfl⟩ := hx
    constructor
    · positivity
    · rw [mul_one_div, div_lt_one (by exact_mod_cast hn)]
      exact_mod_cast hi

/-- C6 witness: the theorem applied at n = 4. -/
theorem c6_color_brew_witness :
    generate_color_brew 4 = [0, 1/4, 1/2, 3/4] :=
  (c6_color_brew 4 (by decide)).2.2.2

theorem foldr_predsF_insert :
    ∀ (st : List TreeNode) (a : ℕ) (acc : Finset ℕ),
      st.foldr (fun t s => predsF t ∪ s) (insert a acc)
        = insert a (st.foldr (fun t s => predsF t ∪ s) acc) := by
  intro st a acc
  induction st with
  | nil => rfl
  | cons t ts IH => simp only [List.foldr_cons, IH, Finset.union_insert]

/-- With enough fuel the class-collection loop computes the union of the
prediction sets of the stacked trees. -/
theorem collectClassesF_spec :
    ∀ (fuel : ℕ) (st : List TreeNode) (acc : Finset ℕ), totalSize st < fuel →
      collectClassesF fuel st acc = st.foldr (fun t s => predsF t ∪ s) acc := by
  intro fuel
  induction fuel with
  | zero => intro st acc h; exact absurd h (Nat.not_lt_zero _)
  | succ fuel IH =>
    intro st acc h
    cases st with
    | nil => rfl
    | cons t ts =>
      cases t with
      | leaf idv p m =>
        have hts : totalSize ts < fuel := by
          simp only [totalSize, List.map_cons, List.sum_cons, TreeNode.size] at h ⊢
          omega
        rw [collectClassesF, IH ts (insert p acc) hts, foldr_predsF_insert]
        simp only [List.foldr_cons, predsF]
        rw [Finset.insert_eq]
      | internal idv p m fi sp g l r =>
        have hts : totalSize (r :: l :: ts) < fuel := by
          simp only [totalSize, List.map_cons, List.sum_cons, TreeNode.size] at h ⊢
          omega
        rw [collectClassesF, IH (r :: l :: ts) (insert p acc) hts,
          foldr_predsF_insert]
        simp only [List.foldr_cons, predsF]
        ext x
        simp only [Finset.mem_insert, Finset.mem_union]
        tauto

/-- The maximum of the prediction set is the structural maximum. -/
theorem predsF_max (t : TreeNode) :
    (predsF t).max = WithBot.some (maxPred t) := by
  induction t with
  | leaf idv p m => simp [predsF, maxPred]
  | internal idv p m fi sp g l r IHl IHr =>
    simp only [predsF, maxPred, Finset.max_insert, Finset.max_union, IHl, IHr]
    simp only [sup_eq_max, WithBot.coe_max]

/-- C3: get_num_classes traverses every node, internal nodes included,
and returns the largest prediction value plus one; on a tree whose
predictions are exactly the set containing 0 and 2 it returns 3 even
though class 1 never occurs. -/
theorem c3_count_classes_max_plus_one (t : TreeNode) :
    get_num_classes t = maxPred t + 1
    ∧ get_num_classes (.internal none 0 (1/2) 0 (.continuous 1) (1/10)
        (.leaf none 2 0) (.leaf none 0 0)) = 3 := by
  have main : ∀ s : TreeNode, get_num_classes s = maxPred s + 1 := by
    intro s
    unfold get_num_classes
    rw [collectClassesF_spec (s.size + 1) [s] ∅
      (by simp only [totalSize, List.map_cons, List.map_nil, List.sum_cons,
        List.sum_nil]; omega)]
    simp only [List.foldr_cons, List.foldr_nil, Finset.union_empty]
    rw [predsF_max]
    rfl
  refine ⟨main t, ?_⟩
  rw [main]
  decide

theorem totalSize_nil : totalSize [] = 0 := rfl

theorem totalSize_cons (t : TreeNode) (ts : List TreeNode) :
    totalSize (t :: ts) = t.size + totalSize ts := by
  simp [totalSize]

theorem totalSize_append (a b : List TreeNode) :
    totalSize (a ++ b) = totalSize a + totalSize b := by
  simp [totalSize]

theorem drop_len_append_two {α : Type} (T : List α) (a b : α) (n : ℕ)
    (h : T.length = n) : (T ++ [a, b]).drop n = [a, b] := by
  subst h
  exact List.drop_left T [a, b]

theorem drop_len_append_two_succ {α : Type} :
    ∀ (T : List α) (a b : α) (n : ℕ), T.length = n →
      (T ++ [a, b]).drop (n + 1) = [b] := by
  intro T
  induction T with
  | nil =>
    intro a b n h
    subst h
    rfl
  | cons x xs IH =>
    intro a b n h
    subst h
    simpa using IH a b xs.length rfl

theorem take_len_append_two {α : Type} (T : List α) (a b : α) (n : ℕ)
    (h : T.length = n) : (T ++ [a, b]).take n = T := by
  subst h
  exact List.take_left T [a, b]

theorem eq_take_append_two {α : Type} (L : List α) (n : ℕ) (d1 d2 : α)
    (h : L.length = n + 2) :
    L = L.take n ++ [(L.drop n).headD d1, (L.drop (n + 1)).headD d2] := by
  have hd : (L.drop n).length = 2 := by
    rw [List.length_drop, h]
    omega
  obtain ⟨x, y, hxy⟩ := List.length_eq_two.mp hd
  have hd2 : L.drop (n + 1) = [y] := by
    have h1 : L.drop (n + 1) = (L.drop n).drop 1 := by
      rw [List.drop_drop, Nat.add_comm]
    rw [h1, hxy]
    rfl
  conv_lhs => rw [← List.take_append_drop n L]
  rw [hxy, hd2]
  rfl

/-- With enough fuel, the breadth-first relabelling of a forest has as
many roots as the input forest. -/
theorem bfnF_length :
    ∀ (fuel i : ℕ) (ts : List TreeNode), totalSize ts < fuel →
      (bfnF fuel i ts).length = ts.length := by
  intro fuel
  induction fuel with
  | zero => intro i ts h; exact absurd h (Nat.not_lt_zero _)
  | succ fuel IH =>
    intro i ts h
    cases ts with
    | nil => rfl
    | cons t ts2 =>
      cases t with
      | leaf idv p m =>
        have h2 : totalSize ts2 < fuel := by
          rw [totalSize_cons, TreeNode.size] at h
          omega
        simp only [bfnF, List.length_cons, IH (i + 1) ts2 h2]
      | internal idv p m fi sp g l r =>
        have h2 : totalSize (ts2 ++ [l, r]) < fuel := by
          rw [totalSize_cons, TreeNode.size] at h
          rw [totalSize_append, totalSize_cons, totalSize_cons, totalSize_nil]
          omega
        simp only [bfnF, List.length_cons, List.length_take,
          IH (i + 1) (ts2 ++ [l, r]) h2, List.length_append]
        simp only [List.length_cons, List.length_nil]
        omega

/-- One unfolding of bfnF at an internal head: the head gets the next
id, and the relabelled forest decomposes into the relabelled tail
followed by the two relabelled children. -/
theorem bfnF_internal_eq (fuel i : ℕ) (idv : Option ℕ) (p : ℕ) (m : ℚ)
    (fi : ℕ) (sp : SplitType) (g : ℚ) (l r : TreeNode) (ts2 : List TreeNode)
    (h : totalSize (.internal idv p m fi sp g l r :: ts2) < fuel + 1) :
    ∃ (l2 r2 : TreeNode) (T : List TreeNode),
      bfnF (fuel + 1) i (.internal idv p m fi sp g l r :: ts2)
        = .internal (some i) p m fi sp g l2 r2 :: T
      ∧ bfnF fuel (i + 1) (ts2 ++ [l, r]) = T ++ [l2, r2]
      ∧ T.length = ts2.length := by
  have h2 : totalSize (ts2 ++ [l, r]) < fuel := by
    rw [totalSize_cons, TreeNode.size] at h
    rw [totalSize_append, totalSize_cons, totalSize_cons, totalSize_nil]
    omega
  have hlen : (bfnF fuel (i + 1) (ts2 ++ [l, r])).length = ts2.length + 2 := by
    rw [bfnF_length fuel (i + 1) (ts2 ++ [l, r]) h2]
    simp
  refine ⟨((bfnF fuel (i + 1) (ts2 ++ [l, r])).drop ts2.length).headD l,
    ((bfnF fuel (i + 1) (ts2 ++ [l, r])).drop (ts2.length + 1)).headD r,
    (bfnF fuel (i + 1) (ts2 ++ [l, r])).take ts2.length, rfl, ?_, ?_⟩
  · exact eq_take_append_two _ ts2.length l r hlen
  · rw [List.length_take, hlen]
    omega

/-- bfnF preserves the number of nodes of the forest. -/
theorem bfnF_totalSize :
    ∀ (fuel i : ℕ) (ts : List TreeNode), totalSize ts < fuel →
      totalSize (bfnF fuel i ts) = totalSize ts := by
  intro fuel
  induction fuel with
  | zero => intro i ts h; exact absurd h (Nat.not_lt_zero _)
  | succ fuel IH =>
    intro i ts h
    cases ts with
    | nil => rfl
    | cons t ts2 =>
      cases t with
      | leaf idv p m =>
        have h2 : totalSize ts2 < fuel := by
          rw [totalSize_cons, TreeNode.size] at h
          omega
        simp only [bfnF, totalSize_cons, TreeNode.size, IH (i + 1) ts2 h2]
      | internal idv p m fi sp g l r =>
        obtain ⟨l2, r2, T, heq, hdec, hTlen⟩ :=
          bfnF_internal_eq fuel i idv p m fi sp g l r ts2 h
        have h2 : totalSize (ts2 ++ [l, r]) < fuel := by
          rw [totalSize_cons, TreeNode.size] at h
          rw [totalSize_append, totalSize_cons, totalSize_cons, totalSize_nil]
          omega
        have hrest := IH (i + 1) (ts2 ++ [l, r]) h2
        rw [hdec] at hrest
        rw [totalSize_append, totalSize_cons, totalSize_cons, totalSize_nil]
          at hrest
        rw [heq, totalSize_cons, TreeNode.size, totalSize_cons, TreeNode.size]
          at *
        have hts : totalSize (ts2 ++ [l, r])
            = totalSize ts2 + (l.size + (r.size + 0)) := by
          rw [totalSize_append, totalSize_cons, totalSize_cons, totalSize_nil]
        rw [hts] at hrest
        omega

/-- Reading the ids of the breadth-first relabelled forest back in
breadth-first order yields the consecutive integers starting at the
first assigned id. -/
theorem bfsIdsF_bfnF :
    ∀ (fuel1 fuel2 i : ℕ) (ts : List TreeNode),
      totalSize ts < fuel1 → totalSize ts < fuel2 →
      bfsIdsF fuel2 (bfnF fuel1 i ts)
        = (List.range' i (totalSize ts)).map some := by
  intro fuel1
  induction fuel1 with
  | zero => intro fuel2 i ts h1 h2; exact absurd h1 (Nat.not_lt_zero _)
  | succ fuel1 IH =>
    intro fuel2 i ts h1 h2
    cases fuel2 with
    | zero => exact absurd h2 (Nat.not_lt_zero _)
    | succ fuel2 =>
      cases ts with
      | nil => rfl
      | cons t ts2 =>
        cases t with
        | leaf idv p m =>
          have hsz : totalSize (.leaf idv p m :: ts2) = totalSize ts2 + 1 := by
            rw [totalSize_cons, TreeNode.size]
            omega
          have hb1 : totalSize ts2 < fuel1 := by omega
          have hb2 : totalSize ts2 < fuel2 := by omega
          simp only [bfnF, bfsIdsF]
          rw [IH fuel2 (i + 1) ts2 hb1 hb2, hsz, List.range'_succ,
            List.map_cons]
        | internal idv p m fi sp g l r =>
          obtain ⟨l2, r2, T, heq, hdec, hTlen⟩ :=
            bfnF_internal_eq fuel1 i idv p m fi sp g l r ts2 h1
          have hsz : totalSize (.internal idv p m fi sp g l r :: ts2)
              = totalSize (ts2 ++ [l, r]) + 1 := by
            rw [totalSize_cons, TreeNode.size, totalSize_append,
              totalSize_cons, totalSize_cons, totalSize_nil]
            omega
          have hb1 : totalSize (ts2 ++ [l, r]) < fuel1 := by omega
          have hb2 : totalSize (ts2 ++ [l, r]) < fuel2 := by omega
          rw [heq]
          simp only [bfsIdsF]
          rw [← hdec, IH fuel2 (i + 1) (ts2 ++ [l, r]) hb1 hb2, hsz,
            List.range'_succ, List.map_cons]

/-- Relabelling an already relabelled forest with the same starting id
changes nothing: the assignment depends only on the shape, which the
first pass preserved. -/
theorem bfnF_idem :
    ∀ (fuel i : ℕ) (ts : List TreeNode), totalSize ts < fuel →
      bfnF fuel i (bfnF fuel i ts) = bfnF fuel i ts := by
  intro fuel
  induction fuel with
  | zero => intro i ts h; exact absurd h (Nat.not_lt_zero _)
  | succ fuel IH =>
    intro i ts h
    cases ts with
    | nil => rfl
    | cons t ts2 =>
      cases t with
      | leaf idv p m =>
        have h2 : totalSize ts2 < fuel := by
          rw [totalSize_cons, TreeNode.size] at h
          omega
        conv_lhs => simp only [bfnF]
        rw [IH (i + 1) ts2 h2]
        rfl
      | internal idv p m fi sp g l r =>
        obtain ⟨l2, r2, T, heq, hdec, hTlen⟩ :=
          bfnF_internal_eq fuel i idv p m fi sp g l r ts2 h
        have h2 : totalSize (ts2 ++ [l, r]) < fuel := by
          rw [totalSize_cons, TreeNode.size] at h
          rw [totalSize_append, totalSize_cons, totalSize_cons, totalSize_nil]
          omega
        rw [heq]
        simp only [bfnF]
        rw [← hdec, IH (i + 1) (ts2 ++ [l, r]) h2, hdec,
          drop_len_append_two T l2 r2 T.length rfl,
          drop_len_append_two_succ T l2 r2 T.length rfl,
          take_len_append_two T l2 r2 T.length rfl]
        rfl

theorem sizeS_shapeOf (t : TreeNode) : sizeS (shapeOf t) = t.size := by
  induction t with
  | leaf idv p m => rfl
  | internal idv p m fi sp g l r IHl IHr =>
    simp [sizeS, shapeOf, TreeNode.size, IHl, IHr]

/-- The ids assigned by the breadth-first relabelling are a function of
the shapes alone: erasing everything but ids and shape commutes with
running the same algorithm on bare shapes. -/
theorem bfnF_shape :
    ∀ (fuel i : ℕ) (ts : List TreeNode), totalSize ts < fuel →
      (bfnF fuel i ts).map idTreeOf = bfnShapeF fuel i (ts.map shapeOf) := by
  intro fuel
  induction fuel with
  | zero => intro i ts h; exact absurd h (Nat.not_lt_zero _)
  | succ fuel IH =>
    intro i ts h
    cases ts with
    | nil => rfl
    | cons t ts2 =>
      cases t with
      | leaf idv p m =>
        have h2 : totalSize ts2 < fuel := by
          rw [totalSize_cons, TreeNode.size] at h
          omega
        simp only [bfnF, List.map_cons, shapeOf, bfnShapeF, idTreeOf,
          IH (i + 1) ts2 h2]
      | internal idv p m fi sp g l r =>
        obtain ⟨l2, r2, T, heq, hdec, hTlen⟩ :=
          bfnF_internal_eq fuel i idv p m fi sp g l r ts2 h
        have h2 : totalSize (ts2 ++ [l, r]) < fuel := by
          rw [totalSize_cons, TreeNode.size] at h
          rw [totalSize_append, totalSize_cons, totalSize_cons, totalSize_nil]
          omega
        rw [heq]
        simp only [List.map_cons, idTreeOf, shapeOf, bfnShapeF]
        have harg : List.map shapeOf ts2 ++ [shapeOf l, shapeOf r]
            = List.map shapeOf (ts2 ++ [l, r]) := by
          simp
        rw [harg, ← IH (i + 1) (ts2 ++ [l, r]) h2, hdec, List.map_append,
          List.length_map]
        simp only [List.map_cons, List.map_nil]
        rw [drop_len_append_two (T.map idTreeOf) (idTreeOf l2) (idTreeOf r2)
            ts2.length (by rw [List.length_map, hTlen]),
          drop_len_append_two_succ (T.map idTreeOf) (idTreeOf l2)
            (idTreeOf r2) ts2.length (by rw [List.length_map, hTlen]),
          take_len_append_two (T.map idTreeOf) (idTreeOf l2) (idTreeOf r2)
            ts2.length (by rw [List.length_map, hTlen])]
        rfl

theorem totalSize_singleton (t : TreeNode) : totalSize [t] = t.size := by
  rw [totalSize_cons, totalSize_nil]
  omega

/-- The relabelled singleton forest of add_node_ids. -/
theorem bfnF_singleton (t : TreeNode) :
    ∃ t2, bfnF (t.size + 1) 0 [t] = [t2] ∧ add_node_ids t = t2 := by
  have hb : totalSize [t] < t.size + 1 := by
    rw [totalSize_singleton]
    omega
  have hl : (bfnF (t.size + 1) 0 [t]).length = 1 :=
    bfnF_length (t.size + 1) 0 [t] hb
  obtain ⟨t2, ht2⟩ := List.length_eq_one.mp hl
  exact ⟨t2, ht2, by rw [add_node_ids, ht2]; rfl⟩

/-- add_node_ids preserves the size of the tree. -/
theorem add_node_ids_size (t : TreeNode) : (add_node_ids t).size = t.size := by
  obtain ⟨t2, ht2, hadd⟩ := bfnF_singleton t
  have hb : totalSize [t] < t.size + 1 := by
    rw [totalSize_singleton]
    omega
  have := bfnF_totalSize (t.size + 1) 0 [t] hb
  rw [ht2, totalSize_singleton, totalSize_singleton] at this
  rw [hadd, this]

/-- C4: add_node_ids assigns breadth-first sequential ids: reading the
ids of the relabelled tree back in FIFO order (root, then children left
before right) gives exactly some 0, some 1, ..., some (size - 1), so the
ids are the distinct integers below the node count with the root getting
0; the id decoration is determined purely by the shape of the tree (it
equals the same algorithm run on the bare shape); and on the 3-node tree
the root gets 0, the left leaf 1, the right leaf 2. -/
theorem c4_assign_ids_breadth_first (t : TreeNode) :
    bfsIds (add_node_ids t) = (List.range t.size).map some
    ∧ idTreeOf (add_node_ids t) = addIdsOfShape (shapeOf t)
    ∧ add_node_ids (.internal none 5 (1/2) 0 (.continuous 1) (1/10)
        (.leaf none 7 0) (.leaf none 9 0))
      = .internal (some 0) 5 (1/2) 0 (.continuous 1) (1/10)
        (.leaf (some 1) 7 0) (.leaf (some 2) 9 0) := by
  obtain ⟨t2, ht2, hadd⟩ := bfnF_singleton t
  have hb : totalSize [t] < t.size + 1 := by
    rw [totalSize_singleton]
    omega
  refine ⟨?_, ?_, by decide⟩
  · have hsz : t2.size = t.size := by
      rw [← hadd, add_node_ids_size]
    rw [hadd] at *
    rw [bfsIds, hsz, ← ht2,
      bfsIdsF_bfnF (t.size + 1) (t.size + 1) 0 [t] hb hb,
      totalSize_singleton, List.range_eq_range']
  · have hshape := bfnF_shape (t.size + 1) 0 [t] hb
    rw [ht2] at hshape
    rw [hadd, addIdsOfShape, sizeS_shapeOf]
    have : List.map shapeOf [t] = [shapeOf t] := rfl
    rw [this] at hshape
    rw [← hshape]
    rfl

/-- C9: add_node_ids run again on its own untouched output returns the
same tree, every id included; re-running after the root's children are
swapped changes the assignment (on the 3-node tree the leaves keep their
old ids 1 and 2 after the swap, and the re-run renumbers them). -/
theorem c9_assign_ids_idempotent (t : TreeNode) :
    add_node_ids (add_node_ids t) = add_node_ids t
    ∧ add_node_ids (swapChildren (add_node_ids
        (.internal none 0 0 0 (.continuous 0) 0
          (.leaf none 0 0) (.leaf none 1 0))))
      ≠ swapChildren (add_node_ids
        (.internal none 0 0 0 (.continuous 0) 0
          (.leaf none 0 0) (.leaf none 1 0))) := by
  obtain ⟨t2, ht2, hadd⟩ := bfnF_singleton t
  have hb : totalSize [t] < t.size + 1 := by
    rw [totalSize_singleton]
    omega
  refine ⟨?_, by decide⟩
  have hsz : t2.size = t.size := by
    rw [← hadd, add_node_ids_size]
  rw [hadd, add_node_ids, hsz, ← ht2,
    bfnF_idem (t.size + 1) 0 [t] hb, ht2]
  rfl
